import Mathlib

/-!
Verification development for the metrics-logging / result-aggregation
subsystem (`ResultCollection`, `FxValidator`) and the app-state store
(`InMemoryStateStore`) of this repository.

The `InMemoryStateStore` embedding follows
`src/lightning_app/utilities/app_helpers.py` directly.  The
`ResultCollection` and `FxValidator` implementations are not part of the
source excerpt (only their tests in
`tests/trainer/logging_/test_logger_connector.py` are), so those
definitions are modelled from the specification, with the behaviour the
in-repository test `test_result_collection_on_tensor_with_mean_reduction`
and `test_fx_validator` pin down (output key naming, view membership,
permission table) taken as authoritative where the spec defers to the
tests.
-/

/-- Association-list lookup, mirroring Python `dict` access `d[k]`
(returning `none` where Python would raise `KeyError`). -/
def findVal {α : Type} : List (String × α) → String → Option α
  | [], _ => none
  | (k, v) :: rest, key => if k = key then some v else findVal rest key

/-- Association-list update of an existing key, mirroring Python
`d[k] = v` on a key already present. -/
def updateVal {α : Type} : List (String × α) → String → α → List (String × α)
  | [], _, _ => []
  | (k, v) :: rest, key, nv =>
      if k = key then (k, nv) :: rest else (k, v) :: updateVal rest key nv

/-- `leadEq needle hay`: `needle` is a leading segment of `hay`. -/
def leadEq : List Char → List Char → Bool
  | [], _ => true
  | _ :: _, [] => false
  | a :: as, b :: bs => a == b && leadEq as bs

/-- `subIn needle hay`: `needle` occurs contiguously inside `hay`. -/
def subIn (needle : List Char) : List Char → Bool
  | [] => needle.isEmpty
  | c :: cs => leadEq needle (c :: cs) || subIn needle cs

/-- Membership test for a substring, mirroring Python `needle in hay`. -/
def strContains (hay needle : String) : Bool := subIn needle.data hay.data

section AppHelpers

/-- A Python object handed to the state store: a mapping value together
with the byte size the Python runtime reports for it via
`sys.getsizeof` (the size is an attribute of the runtime object, so we
carry it on the value). -/
structure PyObj where
  entries : List (String × Int)
  getsizeof : Nat
deriving DecidableEq

/-- The empty mapping `{}` used as the default for `StateEntry` fields. -/
def PyObj.empty : PyObj := ⟨[], 64⟩

/-- `StateEntry` dataclass of `app_helpers.py`: latest app state, last
served state and session id for one key. -/
structure StateEntry where
  app_state : PyObj
  served_state : PyObj
  session_id : Option String
deriving DecidableEq

/-- `StateEntry()` with its dataclass defaults. -/
def StateEntry.new : StateEntry := ⟨PyObj.empty, PyObj.empty, none⟩

/-- `InMemoryStateStore` of `app_helpers.py`: keyed store plus a write
counter. -/
structure InMemoryStateStore where
  store : List (String × StateEntry)
  counter : Nat
deriving DecidableEq

/-- A fresh `InMemoryStateStore()`. -/
def InMemoryStateStore.new : InMemoryStateStore := ⟨[], 0⟩

/-- Python exceptions that the store operations can raise. -/
inductive PyError where
  | lightningAppStateException (msg : String)
  | keyError (k : String)
deriving DecidableEq

/-- Modelled from the spec: the size threshold `APP_STATE_MAX_SIZE_BYTES`
is imported from `lightning_app.core.constants`, which is not part of the
source excerpt; the store only compares sizes against it, so its exact
value is irrelevant to the claims. -/
def APP_STATE_MAX_SIZE_BYTES : Nat := 1024 * 1024

/-- `InMemoryStateStore.add`: `self.store[k] = StateEntry()` (insert or
overwrite). -/
def InMemoryStateStore.add (s : InMemoryStateStore) (k : String) : InMemoryStateStore :=
  match findVal s.store k with
  | some _ => { s with store := updateVal s.store k StateEntry.new }
  | none => { s with store := s.store ++ [(k, StateEntry.new)] }

/-- `InMemoryStateStore.get_app_state`: `self.store[k].app_state`
(`none` where Python raises `KeyError`). -/
def InMemoryStateStore.get_app_state (s : InMemoryStateStore) (k : String) : Option PyObj :=
  (findVal s.store k).map StateEntry.app_state

/-- `InMemoryStateStore.set_app_state`, in state-passing form: the first
component is the raised exception if any, the second the store after the
call.  The size check happens before any mutation, exactly as in the
source. -/
def InMemoryStateStore.set_app_state (s : InMemoryStateStore) (k : String) (v : PyObj) :
    Option PyError × InMemoryStateStore :=
  let state_size := v.getsizeof
  if state_size > APP_STATE_MAX_SIZE_BYTES then
    (some (.lightningAppStateException
      ("App state size is " ++ toString state_size ++
        " bytes, which is larger than the recommended size of " ++
        toString APP_STATE_MAX_SIZE_BYTES ++ ". Please investigate this.")), s)
  else
    match findVal s.store k with
    | none => (some (.keyError k), s)
    | some entry =>
        (none, { store := updateVal s.store k { entry with app_state := v },
                 counter := s.counter + 1 })

end AppHelpers

/-- Looking up the key just updated returns the new value. -/
theorem findVal_updateVal_self {α : Type} (l : List (String × α)) (k : String) (v : α)
    (h : (findVal l k).isSome) : findVal (updateVal l k v) k = some v := by
  induction l with
  | nil => simp [findVal] at h
  | cons p rest ih =>
      obtain ⟨pk, pv⟩ := p
      by_cases hk : pk = k
      · simp [findVal, updateVal, hk]
      · simp [findVal, updateVal, hk] at h ⊢
        exact ih h

/-- C10: `set_app_state` raises a `LightningAppStateException` exactly when
the value's size exceeds `APP_STATE_MAX_SIZE_BYTES`; when that exception is
raised the whole store (hence every key's stored app state) and the counter
are unchanged; and when the call succeeds, `get_app_state` subsequently
returns the new value for that key and the counter grows by exactly 1. -/
theorem set_app_state_spec (s : InMemoryStateStore) (k : String) (v : PyObj) :
    ((∃ m, (s.set_app_state k v).1 = some (.lightningAppStateException m)) ↔
      v.getsizeof > APP_STATE_MAX_SIZE_BYTES)
    ∧ (v.getsizeof > APP_STATE_MAX_SIZE_BYTES → (s.set_app_state k v).2 = s)
    ∧ ((s.set_app_state k v).1 = none →
        (s.set_app_state k v).2.get_app_state k = some v
        ∧ (s.set_app_state k v).2.counter = s.counter + 1) := by
  by_cases hsz : v.getsizeof > APP_STATE_MAX_SIZE_BYTES
  · refine ⟨⟨fun _ => hsz,
      fun _ => by simp [InMemoryStateStore.set_app_state, hsz]⟩,
      fun _ => ?_, fun hnone => ?_⟩
    · simp [InMemoryStateStore.set_app_state, hsz]
    · simp [InMemoryStateStore.set_app_state, hsz] at hnone
  · refine ⟨⟨fun he => absurd he ?_, fun h => absurd h hsz⟩, fun h => absurd h hsz,
      fun hnone => ?_⟩
    · rcases hfv : findVal s.store k with _ | entry
      · simp [InMemoryStateStore.set_app_state, hsz, hfv]
      · simp [InMemoryStateStore.set_app_state, hsz, hfv]
    · rcases hfv : findVal s.store k with _ | entry
      · simp [InMemoryStateStore.set_app_state, hsz, hfv] at hnone
      · constructor
        · simp only [InMemoryStateStore.set_app_state, if_neg hsz, hfv,
            InMemoryStateStore.get_app_state]
          rw [findVal_updateVal_self]
          · rfl
          · simp [hfv]
        · simp [InMemoryStateStore.set_app_state, hsz, hfv]

/-- Witness for C10 at a concrete store: after `add "k"`, setting a small
state succeeds, the state is retrievable and the counter is 1. -/
theorem set_app_state_spec_witness :
    ((InMemoryStateStore.new.add "k").set_app_state "k" ⟨[("x", 3)], 120⟩).2.get_app_state "k"
        = some ⟨[("x", 3)], 120⟩
    ∧ ((InMemoryStateStore.new.add "k").set_app_state "k" ⟨[("x", 3)], 120⟩).2.counter
        = 0 + 1 := by
  have h := (set_app_state_spec (InMemoryStateStore.new.add "k") "k" ⟨[("x", 3)], 120⟩).2.2
    (by decide)
  exact ⟨h.1, h.2⟩

section FxValidatorModel

/-- Allowed flag combinations for one hook: which values of `on_step` and
`on_epoch` may be requested when logging from it. -/
structure LogOptions where
  allowed_on_step : List Bool
  allowed_on_epoch : List Bool
deriving DecidableEq

/-- Errors raised by `FxValidator.check_logging`: a `RuntimeError` for an
unknown hook name, a `MisconfigurationException` for a disallowed
request. -/
inductive FxError where
  | runtimeError (msg : String)
  | misconfigurationException (msg : String)
deriving DecidableEq

/-- Hooks from which logging is allowed at either granularity. -/
def allowAll : Option LogOptions := some ⟨[false, true], [false, true]⟩

/-- Epoch-end hooks: logging allowed, but `on_step=True` is forbidden. -/
def allowNoStep : Option LogOptions := some ⟨[false], [false, true]⟩

/-- Modelled from the spec: the `FxValidator` static permission table
(its implementation is not in the source excerpt).  The enumerated hook
set is the callback function list of `test_fx_validator`; `none` marks
the hooks that forbid logging entirely (the test's `not_supported`
list), and the allowed flag combinations follow the spec ("epoch-end
hooks forbid on_step=true") and the calls the test expects to
succeed. -/
def FxValidator.functions : List (String × Option LogOptions) := [
  ("on_after_backward", allowAll),
  ("on_batch_end", allowAll),
  ("on_batch_start", allowAll),
  ("on_before_accelerator_backend_setup", none),
  ("on_before_zero_grad", allowAll),
  ("on_epoch_end", allowNoStep),
  ("on_epoch_start", allowAll),
  ("on_fit_end", none),
  ("on_configure_sharded_model", none),
  ("on_fit_start", none),
  ("on_init_end", none),
  ("on_init_start", none),
  ("on_keyboard_interrupt", none),
  ("on_load_checkpoint", none),
  ("on_pretrain_routine_end", none),
  ("on_pretrain_routine_start", none),
  ("on_sanity_check_end", none),
  ("on_sanity_check_start", none),
  ("on_save_checkpoint", none),
  ("on_test_batch_end", allowAll),
  ("on_test_batch_start", allowAll),
  ("on_test_end", none),
  ("on_test_epoch_end", allowNoStep),
  ("on_test_epoch_start", allowAll),
  ("on_test_start", allowAll),
  ("on_train_batch_end", allowAll),
  ("on_train_batch_start", allowAll),
  ("on_train_end", none),
  ("on_train_epoch_end", allowNoStep),
  ("on_train_epoch_start", allowAll),
  ("on_train_start", allowAll),
  ("on_validation_batch_end", allowAll),
  ("on_validation_batch_start", allowAll),
  ("on_validation_end", none),
  ("on_validation_epoch_end", allowNoStep),
  ("on_validation_epoch_start", allowAll),
  ("on_validation_start", allowAll),
  ("on_predict_batch_end", none),
  ("on_predict_batch_start", none),
  ("on_predict_end", none),
  ("on_predict_epoch_end", none),
  ("on_predict_epoch_start", none),
  ("on_predict_start", none),
  ("setup", none),
  ("teardown", none)]

/-- Message for a hook name absent from the table (grouped so that the
phrase "not implemented" is a visible concatenation chunk, as the test
regex requires it verbatim). -/
def notImplementedMsg (fx : String) : String :=
  ("You are trying to log inside `" ++ fx ++ "` but it is ") ++ "not implemented" ++
    ". Please, open an issue in the repository."

/-- Message for a hook that forbids logging entirely. -/
def noLoggingMsg (fx : String) : String :=
  "You are not allowed to call self.log inside `" ++ fx ++
    "`: the hook function does not support logging."

/-- Message for a disallowed `on_step`/`on_epoch` combination, naming the
hook and the offending flags. -/
def badComboMsg (fx : String) (on_step on_epoch : Bool) : String :=
  "You are not allowed to call self.log with on_step=" ++ toString on_step ++
    " and on_epoch=" ++ toString on_epoch ++ " inside `" ++ fx ++ "`."

/-- Modelled from the spec: `FxValidator.check_logging` — unknown hook
names are fatal (`RuntimeError` whose message says "not implemented"),
hooks mapped to `none` forbid logging entirely, and otherwise the
requested flags must both lie in the allowed sets. -/
def FxValidator.check_logging (fx : String) (on_step on_epoch : Bool) :
    Except FxError Unit :=
  match findVal FxValidator.functions fx with
  | none => .error (.runtimeError (notImplementedMsg fx))
  | some none => .error (.misconfigurationException (noLoggingMsg fx))
  | some (some opts) =>
      if on_step ∈ opts.allowed_on_step then
        if on_epoch ∈ opts.allowed_on_epoch then .ok ()
        else .error (.misconfigurationException (badComboMsg fx on_step on_epoch))
      else .error (.misconfigurationException (badComboMsg fx on_step on_epoch))

/-- An epoch-end (non-batch, non-start) stage hook, in the words of the
test: its name mentions one of the three stages and neither "batch" nor
"start". -/
def isEpochEndStageHook (fx : String) : Bool :=
  (strContains fx "train" || strContains fx "test" || strContains fx "validation")
    && !strContains fx "batch" && !strContains fx "start"

end FxValidatorModel

/-- A successful association-list lookup comes from an entry of the list. -/
theorem findVal_mem {α : Type} (l : List (String × α)) (k : String) (v : α)
    (h : findVal l k = some v) : (k, v) ∈ l := by
  induction l with
  | nil => simp [findVal] at h
  | cons p rest ih =>
      obtain ⟨pk, pv⟩ := p
      by_cases hk : pk = k
      · subst hk
        simp [findVal] at h
        simp [h]
      · simp [findVal, hk] at h
        exact List.mem_cons_of_mem _ (ih h)

/-- C6: for every hook-function name outside the validator's enumerated
table, `check_logging` fails for any flag combination with an error whose
message contains "not implemented". -/
theorem c6_unknown_hook_not_implemented (fx : String)
    (h : findVal FxValidator.functions fx = none) (on_step on_epoch : Bool) :
    ∃ pre post, FxValidator.check_logging fx on_step on_epoch
      = .error (.runtimeError (pre ++ "not implemented" ++ post)) := by
  refine ⟨"You are trying to log inside `" ++ fx ++ "` but it is ",
    ". Please, open an issue in the repository.", ?_⟩
  simp [FxValidator.check_logging, h, notImplementedMsg]

/-- Witness for C6 at the unknown name "foo" of the test. -/
theorem c6_witness :
    findVal FxValidator.functions "foo" = none ∧
    ∃ pre post, FxValidator.check_logging "foo" false false
      = .error (.runtimeError (pre ++ "not implemented" ++ post)) :=
  ⟨by decide, c6_unknown_hook_not_implemented "foo" (by decide) false false⟩

/-- C7: `check_logging "on_train_end" True True` raises a configuration
error, and indeed the table entry of `on_train_end` forbids logging
entirely. -/
theorem c7_on_train_end_forbids_logging :
    findVal FxValidator.functions "on_train_end" = some none ∧
    FxValidator.check_logging "on_train_end" true true
      = .error (.misconfigurationException (noLoggingMsg "on_train_end")) :=
  ⟨by decide, by rfl⟩

/-- Decidable equality of validator outcomes, for scanning the table. -/
instance : DecidableEq (Except FxError Unit) := fun a b =>
  match a, b with
  | .ok x, .ok y => isTrue (by cases x; cases y; rfl)
  | .error x, .error y =>
      match decEq x y with
      | isTrue h => isTrue (by rw [h])
      | isFalse h => isFalse fun he => h (by injection he)
  | .ok _, .error _ => isFalse fun he => Except.noConfusion he
  | .error _, .ok _ => isFalse fun he => Except.noConfusion he

/-- Per-entry property scanned over the whole permission table: an entry
that allows logging and is an epoch-end stage hook rejects `on_step=true`
for both `on_epoch` values with the combination-naming error, and accepts
`on_step=false`. -/
def c8Holds (p : String × Option LogOptions) : Bool :=
  match p.2 with
  | some _ =>
      !(isEpochEndStageHook p.1) ||
        (decide (FxValidator.check_logging p.1 true false
            = .error (.misconfigurationException (badComboMsg p.1 true false)))
          && decide (FxValidator.check_logging p.1 true true
            = .error (.misconfigurationException (badComboMsg p.1 true true)))
          && decide (FxValidator.check_logging p.1 false true = .ok ()))
  | none => true

/-- C8: every known hook that allows logging and is an epoch-end
(non-batch, non-start) stage hook rejects `on_step=True` with a
configuration error naming the offending combination, while the same call
with `on_step=False` succeeds. -/
theorem c8_epoch_end_stage_hook_on_step (fx : String) (opts : LogOptions)
    (h : findVal FxValidator.functions fx = some (some opts))
    (hstage : isEpochEndStageHook fx = true) (oe : Bool) :
    FxValidator.check_logging fx true oe
      = .error (.misconfigurationException (badComboMsg fx true oe)) ∧
    FxValidator.check_logging fx false true = .ok () := by
  have hmem : (fx, some opts) ∈ FxValidator.functions := findVal_mem _ _ _ h
  have hall : FxValidator.functions.all c8Holds = true := by decide
  have hp : c8Holds (fx, some opts) = true := List.all_eq_true.mp hall _ hmem
  simp only [c8Holds, hstage, Bool.not_true, Bool.false_or, Bool.and_eq_true,
    decide_eq_true_eq] at hp
  obtain ⟨⟨h1, h2⟩, h3⟩ := hp
  refine ⟨?_, h3⟩
  cases oe
  · exact h1
  · exact h2

/-- Witness for C8 at `on_train_epoch_end`. -/
theorem c8_witness :
    (findVal FxValidator.functions "on_train_epoch_end"
        = some (some ⟨[false], [false, true]⟩)
      ∧ isEpochEndStageHook "on_train_epoch_end" = true)
    ∧ (FxValidator.check_logging "on_train_epoch_end" true true
        = .error (.misconfigurationException (badComboMsg "on_train_epoch_end" true true))
      ∧ FxValidator.check_logging "on_train_epoch_end" false true = .ok ()) :=
  ⟨⟨by decide, by decide⟩,
    c8_epoch_end_stage_hook_on_step "on_train_epoch_end" ⟨[false], [false, true]⟩
      (by decide) (by decide) true⟩

section ResultCollectionModel

/-- Reduction policy of a logged metric; `mean` is the default. -/
inductive Reduction where
  | mean
  | sum
  | max
  | min
deriving DecidableEq

/-- Modelled from the spec: the `LoggedValue` record of the metric result
aggregator (its implementation is not in the source excerpt).  It holds
the running accumulation (`value` is the weighted sum, pre-division, under
the `mean` policy), the cumulated weight, the latest raw logged value,
and the flags fixed at the first `log` call. -/
structure LoggedValue where
  name : String
  value : ℚ
  cumulated_batch_size : ℚ
  last_value : ℚ
  on_step : Bool
  on_epoch : Bool
  prog_bar : Bool
  logger : Bool
  reduction : Reduction
deriving DecidableEq

/-- The record created by the first `log` call for a key. -/
def LoggedValue.init (name : String) (value : ℚ) (on_step on_epoch : Bool)
    (batch_size : ℚ) (prog_bar logger : Bool) (reduction : Reduction) : LoggedValue :=
  { name := name
    value := match reduction with
      | .mean => value * batch_size
      | .sum => value
      | .max => value
      | .min => value
    cumulated_batch_size := batch_size
    last_value := value
    on_step := on_step
    on_epoch := on_epoch
    prog_bar := prog_bar
    logger := logger
    reduction := reduction }

/-- Modelled from the spec: one further observation folded into the
accumulator — under `mean`, `value_sum += value * batch_size` and
`weight_sum += batch_size`. -/
def LoggedValue.accum (lv : LoggedValue) (value batch_size : ℚ) : LoggedValue :=
  match lv.reduction with
  | .mean => { lv with
      value := lv.value + value * batch_size
      cumulated_batch_size := lv.cumulated_batch_size + batch_size
      last_value := value }
  | .sum => { lv with
      value := lv.value + value
      cumulated_batch_size := lv.cumulated_batch_size + batch_size
      last_value := value }
  | .max => { lv with
      value := max lv.value value
      cumulated_batch_size := lv.cumulated_batch_size + batch_size
      last_value := value }
  | .min => { lv with
      value := min lv.value value
      cumulated_batch_size := lv.cumulated_batch_size + batch_size
      last_value := value }

/-- Epoch value of a metric: the weighted mean `value_sum / weight_sum`
under the default policy, the accumulated value under the others. -/
def LoggedValue.epochValue (lv : LoggedValue) : ℚ :=
  match lv.reduction with
  | .mean => lv.value / lv.cumulated_batch_size
  | _ => lv.value

/-- Output key of a metric in the step views: suffixed `_step` exactly
when the metric is also logged on epoch (naming pinned down by
`test_result_collection_on_tensor_with_mean_reduction`). -/
def LoggedValue.stepName (lv : LoggedValue) : String :=
  if lv.on_epoch then lv.name ++ "_step" else lv.name

/-- Output key of a metric in the epoch views: suffixed `_epoch` exactly
when the metric is also logged on step (naming pinned down by
`test_result_collection_on_tensor_with_mean_reduction`). -/
def LoggedValue.epochName (lv : LoggedValue) : String :=
  if lv.on_step then lv.name ++ "_epoch" else lv.name

/-- Step value of a metric: the latest raw logged value while the
epoch-end marker is not yet set, the epoch reduction afterwards. -/
def LoggedValue.stepValue (epochEnd : Bool) (lv : LoggedValue) : ℚ :=
  if epochEnd then lv.epochValue else lv.last_value

/-- The three output groupings of the aggregator. -/
inductive DefaultMetricsKeys where
  | PBAR
  | LOG
  | CALLBACK
deriving DecidableEq

/-- One bundle of aggregated metrics, grouped by destination. -/
structure Metrics where
  pbar : List (String × ℚ)
  log : List (String × ℚ)
  callback : List (String × ℚ)
deriving DecidableEq

/-- Access a grouping, mirroring `metrics[DefaultMetricsKeys.PBAR]`. -/
def Metrics.get (m : Metrics) : DefaultMetricsKeys → List (String × ℚ)
  | .PBAR => m.pbar
  | .LOG => m.log
  | .CALLBACK => m.callback

/-- Modelled from the spec: the `ResultCollection` state — the mapping
from composite key `context.metric_name` to `LoggedValue`, the current
batch index, and the epoch-end marker (its implementation is not in the
source excerpt). -/
structure ResultCollection where
  training : Bool
  batch_idx : Nat
  on_epoch_end_reached : Bool
  items : List (String × LoggedValue)
deriving DecidableEq

/-- A fresh `ResultCollection(training, device)`. -/
def ResultCollection.new (training : Bool) : ResultCollection :=
  ⟨training, 0, false, []⟩

/-- Modelled from the spec: `log(context, key, value, on_step, on_epoch,
batch_size, prog_bar, logger)` — creates the `LoggedValue` on the first
call for the composite key `context.key` and folds further observations
into the running accumulation. -/
def ResultCollection.log (rc : ResultCollection) (fx name : String) (value : ℚ)
    (on_step on_epoch : Bool) (batch_size : ℚ) (prog_bar logger : Bool)
    (reduction : Reduction := .mean) : ResultCollection :=
  let key := fx ++ "." ++ name
  match findVal rc.items key with
  | some lv => { rc with items := updateVal rc.items key (lv.accum value batch_size) }
  | none => { rc with
      items := rc.items ++
        [(key, LoggedValue.init name value on_step on_epoch batch_size prog_bar logger
            reduction)] }

/-- Accessor by composite key, mirroring `collection[key]`. -/
def ResultCollection.getItem (rc : ResultCollection) (key : String) : Option LoggedValue :=
  findVal rc.items key

/-- Modelled from the spec: `get_batch_metrics()` — for each key with
`on_step=true`, a step entry under PBAR iff `prog_bar`, under LOG iff
`logger`, and under CALLBACK unconditionally; for keys logged with both
flags the CALLBACK view carries both the bare key and the `_step`
variant. -/
def ResultCollection.get_batch_metrics (rc : ResultCollection) : Metrics :=
  let active := rc.items.filter fun p => p.2.on_step
  { pbar := (active.filter fun p => p.2.prog_bar).map
      fun p => (p.2.stepName, p.2.stepValue rc.on_epoch_end_reached)
    log := (active.filter fun p => p.2.logger).map
      fun p => (p.2.stepName, p.2.stepValue rc.on_epoch_end_reached)
    callback := active.flatMap fun p =>
      (p.2.name, p.2.stepValue rc.on_epoch_end_reached) ::
        (if p.2.on_epoch
          then [(p.2.stepName, p.2.stepValue rc.on_epoch_end_reached)] else []) }

/-- Modelled from the spec: `get_epoch_metrics()` — for each key with
`on_epoch=true`, the epoch reduction under PBAR iff `prog_bar`, under LOG
iff `logger`, and under CALLBACK unconditionally; for keys logged with
both flags the CALLBACK view carries both the bare key and the `_epoch`
variant. -/
def ResultCollection.get_epoch_metrics (rc : ResultCollection) : Metrics :=
  let active := rc.items.filter fun p => p.2.on_epoch
  { pbar := (active.filter fun p => p.2.prog_bar).map
      fun p => (p.2.epochName, p.2.epochValue)
    log := (active.filter fun p => p.2.logger).map
      fun p => (p.2.epochName, p.2.epochValue)
    callback := active.flatMap fun p =>
      (p.2.name, p.2.epochValue) ::
        (if p.2.on_step then [(p.2.epochName, p.2.epochValue)] else []) }

/-- The method call `collection.get_batch_metrics()` in state-passing
form: the returned bundle together with the collection afterwards. -/
def ResultCollection.get_batch_metrics_call (rc : ResultCollection) :
    Metrics × ResultCollection :=
  (rc.get_batch_metrics, rc)

/-- A whole sequence of `log` calls for one key, each observation a
`(value, batch_size)` pair. -/
def ResultCollection.logMany (rc : ResultCollection) (fx name : String)
    (on_step on_epoch prog_bar logger : Bool) (pairs : List (ℚ × ℚ)) : ResultCollection :=
  pairs.foldl
    (fun acc p => acc.log fx name p.1 on_step on_epoch p.2 prog_bar logger) rc

/-- Weighted sum of a sequence of observations. -/
def sumVB (pairs : List (ℚ × ℚ)) : ℚ := (pairs.map fun p => p.1 * p.2).sum

/-- Total weight of a sequence of observations. -/
def sumB (pairs : List (ℚ × ℚ)) : ℚ := (pairs.map Prod.snd).sum

end ResultCollectionModel

/-- Logging repeatedly into a collection holding exactly the targeted key
folds the observations into that key's accumulator. -/
theorem logMany_singleton (fx name : String) (os oe pb lg : Bool)
    (pairs : List (ℚ × ℚ)) :
    ∀ (tr : Bool) (bi : Nat) (ee : Bool) (lv : LoggedValue),
    ResultCollection.logMany ⟨tr, bi, ee, [(fx ++ "." ++ name, lv)]⟩
        fx name os oe pb lg pairs
      = ⟨tr, bi, ee, [(fx ++ "." ++ name,
          pairs.foldl (fun a p => a.accum p.1 p.2) lv)]⟩ := by
  induction pairs with
  | nil => intro tr bi ee lv; rfl
  | cons p rest ih =>
      intro tr bi ee lv
      have hstep : ResultCollection.log ⟨tr, bi, ee, [(fx ++ "." ++ name, lv)]⟩
          fx name p.1 os oe p.2 pb lg
          = ⟨tr, bi, ee, [(fx ++ "." ++ name, lv.accum p.1 p.2)]⟩ := by
        simp [ResultCollection.log, findVal, updateVal]
      simp only [ResultCollection.logMany, List.foldl_cons] at ih ⊢
      rw [hstep, ih]

/-- The first `log` call on a fresh collection creates the record. -/
theorem log_empty (tr : Bool) (fx name : String) (v : ℚ) (os oe : Bool) (b : ℚ)
    (pb lg : Bool) :
    (ResultCollection.new tr).log fx name v os oe b pb lg
      = ⟨tr, 0, false,
          [(fx ++ "." ++ name, LoggedValue.init name v os oe b pb lg .mean)]⟩ := by
  simp [ResultCollection.new, ResultCollection.log, findVal]

/-- Folding observations into a mean-policy accumulator adds the weighted
values, adds the weights, and keeps the latest raw value. -/
theorem foldl_accum_mean (pairs : List (ℚ × ℚ)) :
    ∀ lv : LoggedValue, lv.reduction = .mean →
    pairs.foldl (fun a p => a.accum p.1 p.2) lv
      = { lv with
          value := lv.value + sumVB pairs
          cumulated_batch_size := lv.cumulated_batch_size + sumB pairs
          last_value := (pairs.map Prod.fst).getLastD lv.last_value } := by
  induction pairs with
  | nil => intro lv h; simp [sumVB, sumB]
  | cons p rest ih =>
      intro lv h
      have haccum : lv.accum p.1 p.2
          = { lv with
              value := lv.value + p.1 * p.2
              cumulated_batch_size := lv.cumulated_batch_size + p.2
              last_value := p.1 } := by
        unfold LoggedValue.accum
        rw [h]
      rw [List.foldl_cons, haccum, ih _ (by simp [h])]
      simp only [sumVB, sumB, List.map_cons, List.sum_cons, List.getLastD_cons,
        LoggedValue.mk.injEq, and_true, true_and]
      exact ⟨by ring, by ring⟩

/-- Full description of the collection after a nonempty sequence of `log`
calls for a single key on a fresh collection. -/
theorem logMany_new (tr : Bool) (fx name : String) (os oe pb lg : Bool)
    (pairs : List (ℚ × ℚ)) (h : pairs ≠ []) :
    (ResultCollection.new tr).logMany fx name os oe pb lg pairs
      = ⟨tr, 0, false, [(fx ++ "." ++ name,
          { name := name
            value := sumVB pairs
            cumulated_batch_size := sumB pairs
            last_value := (pairs.map Prod.fst).getLastD 0
            on_step := os
            on_epoch := oe
            prog_bar := pb
            logger := lg
            reduction := .mean })]⟩ := by
  obtain ⟨⟨v, b⟩, rest, rfl⟩ : ∃ p rest, pairs = p :: rest := by
    cases pairs with
    | nil => exact absurd rfl h
    | cons p r => exact ⟨p, r, rfl⟩
  calc (ResultCollection.new tr).logMany fx name os oe pb lg ((v, b) :: rest)
      = ResultCollection.logMany
          ⟨tr, 0, false, [(fx ++ "." ++ name, LoggedValue.init name v os oe b pb lg .mean)]⟩
          fx name os oe pb lg rest := by
        simp only [ResultCollection.logMany, List.foldl_cons, log_empty]
    _ = ⟨tr, 0, false, [(fx ++ "." ++ name,
          rest.foldl (fun a p => a.accum p.1 p.2)
            (LoggedValue.init name v os oe b pb lg .mean))]⟩ :=
        logMany_singleton fx name os oe pb lg rest tr 0 false _
    _ = _ := by
        rw [foldl_accum_mean rest _ rfl]
        simp only [LoggedValue.init, sumVB, sumB, List.map_cons, List.sum_cons,
          List.getLastD_cons, Prod.fst, Prod.snd]

/-- A string is never equal to itself extended by a nonempty suffix. -/
theorem ne_append_right (s t : String) (ht : 0 < t.length) : ¬ s = s ++ t := by
  intro he
  have hl := congrArg String.length he
  rw [String.length_append] at hl
  omega

/-- A string extended by a nonempty suffix differs from the string. -/
theorem append_ne_left (s t : String) (ht : 0 < t.length) : ¬ s ++ t = s :=
  fun he => ne_append_right s t ht he.symm

/-- Extensions of the same string by suffixes of different lengths
differ. -/
theorem append_ne_of_length_ne (s t u : String) (h : t.length ≠ u.length) :
    ¬ s ++ t = s ++ u := by
  intro he
  have hl := congrArg String.length he
  rw [String.length_append, String.length_append] at hl
  omega

/-- C1: for every nonempty sequence of `log` calls with positive batch
sizes for a key logged with `on_epoch=true` under the default mean
reduction, the epoch metric reported by `get_epoch_metrics` (here read
off the CALLBACK grouping, which always carries the bare key) is the
weighted mean `sum(value_i * batch_size_i) / sum(batch_size_i)`. -/
theorem c1_epoch_metric_weighted_mean (tr : Bool) (fx name : String)
    (os pb lg : Bool) (pairs : List (ℚ × ℚ)) (hne : pairs ≠ [])
    (hpos : ∀ p ∈ pairs, 0 < p.2) :
    findVal ((((ResultCollection.new tr).logMany fx name os true pb lg
        pairs).get_epoch_metrics).get .CALLBACK) name
      = some (sumVB pairs / sumB pairs) := by
  rw [logMany_new tr fx name os true pb lg pairs hne]
  simp [ResultCollection.get_epoch_metrics, Metrics.get, List.filter_cons,
    List.flatMap_cons, LoggedValue.epochValue, findVal]

/-- Witness for C1: the claim's scenario, value 5.0 with batch size 10
then value 1.0 with batch size 1, yields epoch metric (50+1)/11. -/
theorem c1_witness :
    findVal ((((ResultCollection.new true).logMany "training_step" "acc" false true
        false false [((5 : ℚ), (10 : ℚ)), (1, 1)]).get_epoch_metrics).get .CALLBACK)
        "acc"
      = some ((51 : ℚ) / 11) := by
  have h := c1_epoch_metric_weighted_mean true "training_step" "acc" false false false
    [((5 : ℚ), (10 : ℚ)), (1, 1)] (by simp) (by norm_num)
  rw [h]
  simp only [sumVB, sumB, List.map_cons, List.map_nil, List.sum_cons, List.sum_nil,
    Option.some.injEq]
  norm_num

/-- C5: after any nonempty sequence of `log` calls for a key, the record
reached through the accessor `collection[context.key]` exposes `.value`
equal to the running weighted sum (pre-division) and
`.cumulated_batch_size` equal to the sum of the logged batch sizes. -/
theorem c5_accessor_running_sums (tr : Bool) (fx name : String)
    (os oe pb lg : Bool) (pairs : List (ℚ × ℚ)) (hne : pairs ≠ []) :
    ((((ResultCollection.new tr).logMany fx name os oe pb lg pairs).getItem
        (fx ++ "." ++ name)).map fun lv => (lv.value, lv.cumulated_batch_size))
      = some (sumVB pairs, sumB pairs) := by
  rw [logMany_new tr fx name os oe pb lg pairs hne]
  simp [ResultCollection.getItem, findVal]

/-- Witness for C5, mirroring the test's accessor assertions. -/
theorem c5_witness :
    ((((ResultCollection.new true).logMany "training_step" "acc" true true false false
        [((5 : ℚ), (10 : ℚ)), (1, 1)]).getItem
        ("training_step" ++ "." ++ "acc")).map
      fun lv => (lv.value, lv.cumulated_batch_size))
      = some ((51 : ℚ), (11 : ℚ)) := by
  have h := c5_accessor_running_sums true "training_step" "acc" true true false false
    [((5 : ℚ), (10 : ℚ)), (1, 1)] (by simp)
  rw [h]
  simp only [sumVB, sumB, List.map_cons, List.map_nil, List.sum_cons, List.sum_nil,
    Option.some.injEq, Prod.mk.injEq]
  norm_num

/-- C9: calling `get_batch_metrics` twice without an intervening `log`
returns the same bundle both times, and the second call leaves the
collection unchanged. -/
theorem c9_get_batch_metrics_idempotent (rc : ResultCollection) :
    (rc.get_batch_metrics_call.2.get_batch_metrics_call).1
        = rc.get_batch_metrics_call.1
    ∧ (rc.get_batch_metrics_call.2.get_batch_metrics_call).2 = rc :=
  ⟨rfl, rfl⟩

/-- Collection holding the single metric "acc" logged once from
`training_step` with `on_step=true`, `on_epoch=true`, value 5, batch
size 10, `prog_bar` and `logger` set. -/
def rcBoth : ResultCollection :=
  (ResultCollection.new true).log "training_step" "acc" 5 true true 10 true true

/-- The same collection after the epoch-end marker is set. -/
def rcBothClosed : ResultCollection := { rcBoth with on_epoch_end_reached := true }

/-- Normal form of `rcBoth`. -/
theorem rcBoth_eq : rcBoth
    = ⟨true, 0, false, [("training_step" ++ "." ++ "acc",
        LoggedValue.init "acc" 5 true true 10 true true .mean)]⟩ :=
  log_empty true "training_step" "acc" 5 true true 10 true true

/-- Counterexample to C2 as stated: for a metric logged with both
`on_step=true` and `on_epoch=true`, the PBAR grouping of
`get_epoch_metrics` does not carry the bare key — it carries the
`_epoch`-suffixed key (the step view does use `_step`). -/
theorem c2_counterexample :
    findVal ((rcBoth.get_epoch_metrics).get .PBAR) "acc" = none
    ∧ findVal ((rcBoth.get_epoch_metrics).get .PBAR) ("acc" ++ "_epoch")
        = some 5
    ∧ findVal ((rcBoth.get_batch_metrics).get .PBAR) ("acc" ++ "_step")
        = some 5 := by
  rw [rcBoth_eq]
  refine ⟨?_, ?_, ?_⟩ <;>
    simp [ResultCollection.get_epoch_metrics, ResultCollection.get_batch_metrics,
      Metrics.get, List.filter_cons, LoggedValue.init, LoggedValue.epochName,
      LoggedValue.stepName, LoggedValue.epochValue, LoggedValue.stepValue,
      findVal]

/-- C2 as amended: for every metric logged (nonempty sequence) with both
`on_step=true` and `on_epoch=true`, the PBAR and LOG groupings of
`get_epoch_metrics` carry it under `<key>_epoch` (not the bare key, which
is absent there), and the step views of `get_batch_metrics` carry it
under `<key>_step` with the latest raw value. -/
theorem c2_amended_epoch_key_suffix (tr : Bool) (fx name : String)
    (pairs : List (ℚ × ℚ)) (hne : pairs ≠ []) :
    findVal ((((ResultCollection.new tr).logMany fx name true true true true
        pairs).get_epoch_metrics).get .PBAR) (name ++ "_epoch")
      = some (sumVB pairs / sumB pairs)
    ∧ findVal ((((ResultCollection.new tr).logMany fx name true true true true
        pairs).get_epoch_metrics).get .LOG) (name ++ "_epoch")
      = some (sumVB pairs / sumB pairs)
    ∧ findVal ((((ResultCollection.new tr).logMany fx name true true true true
        pairs).get_epoch_metrics).get .PBAR) name = none
    ∧ findVal ((((ResultCollection.new tr).logMany fx name true true true true
        pairs).get_batch_metrics).get .PBAR) (name ++ "_step")
      = some ((pairs.map Prod.fst).getLastD 0)
    ∧ findVal ((((ResultCollection.new tr).logMany fx name true true true true
        pairs).get_batch_metrics).get .LOG) (name ++ "_step")
      = some ((pairs.map Prod.fst).getLastD 0) := by
  rw [logMany_new tr fx name true true true true pairs hne]
  refine ⟨?_, ?_, ?_, ?_, ?_⟩ <;>
    simp [ResultCollection.get_epoch_metrics, ResultCollection.get_batch_metrics,
      Metrics.get, List.filter_cons, List.flatMap_cons, LoggedValue.epochName,
      LoggedValue.stepName, LoggedValue.epochValue, LoggedValue.stepValue, findVal,
      append_ne_left name "_epoch" (by decide),
      append_ne_left name "_step" (by decide)]

/-- Witness for C2 as amended, at the concrete scenario of C1. -/
theorem c2_witness :
    findVal ((((ResultCollection.new true).logMany "training_step" "acc" true true
        true true [((5 : ℚ), (10 : ℚ)), (1, 1)]).get_epoch_metrics).get .PBAR)
        ("acc" ++ "_epoch")
      = some ((51 : ℚ) / 11) := by
  have h := (c2_amended_epoch_key_suffix true "training_step" "acc"
    [((5 : ℚ), (10 : ℚ)), (1, 1)] (by simp)).1
  rw [h]
  simp only [sumVB, sumB, List.map_cons, List.map_nil, List.sum_cons, List.sum_nil,
    Option.some.injEq]
  norm_num

/-- Counterexample to C3 as stated: after the epoch-end marker is set,
the CALLBACK grouping of `get_epoch_metrics` does not contain
`<key>_step` — it contains the bare key and `<key>_epoch`. -/
theorem c3_counterexample :
    findVal ((rcBothClosed.get_epoch_metrics).get .CALLBACK) ("acc" ++ "_step")
        = none
    ∧ findVal ((rcBothClosed.get_epoch_metrics).get .CALLBACK) "acc" = some 5
    ∧ findVal ((rcBothClosed.get_epoch_metrics).get .CALLBACK) ("acc" ++ "_epoch")
        = some 5 := by
  have hc : rcBothClosed
      = ⟨true, 0, true, [("training_step" ++ "." ++ "acc",
          LoggedValue.init "acc" 5 true true 10 true true .mean)]⟩ := by
    rw [rcBothClosed, rcBoth_eq]
  rw [hc]
  refine ⟨?_, ?_, ?_⟩ <;>
    simp [ResultCollection.get_epoch_metrics, Metrics.get, List.filter_cons,
      List.flatMap_cons, LoggedValue.init, LoggedValue.epochName,
      LoggedValue.epochValue, findVal,
      ne_append_right "acc" "_step" (by decide),
      append_ne_of_length_ne "acc" "_epoch" "_step" (by decide)]

/-- C3 as amended: for every key logged (nonempty sequence) with
`on_step=true` and `on_epoch=true`, after the epoch-end marker is set the
CALLBACK grouping of `get_epoch_metrics` contains both the bare key and
`<key>_epoch`, each equal to the epoch reduction (the weighted mean);
`<key>_step` is absent from it. -/
theorem c3_amended_callback_epoch_variants (tr : Bool) (fx name : String)
    (pb lg : Bool) (pairs : List (ℚ × ℚ)) (hne : pairs ≠ []) :
    findVal ((({ (ResultCollection.new tr).logMany fx name true true pb lg pairs with
        on_epoch_end_reached := true }).get_epoch_metrics).get .CALLBACK) name
      = some (sumVB pairs / sumB pairs)
    ∧ findVal ((({ (ResultCollection.new tr).logMany fx name true true pb lg pairs with
        on_epoch_end_reached := true }).get_epoch_metrics).get .CALLBACK)
        (name ++ "_epoch")
      = some (sumVB pairs / sumB pairs)
    ∧ findVal ((({ (ResultCollection.new tr).logMany fx name true true pb lg pairs with
        on_epoch_end_reached := true }).get_epoch_metrics).get .CALLBACK)
        (name ++ "_step")
      = none := by
  rw [logMany_new tr fx name true true pb lg pairs hne]
  refine ⟨?_, ?_, ?_⟩ <;>
    simp [ResultCollection.get_epoch_metrics, Metrics.get, List.filter_cons,
      List.flatMap_cons, LoggedValue.epochName, LoggedValue.epochValue, findVal,
      ne_append_right name "_step" (by decide),
      append_ne_left name "_epoch" (by decide),
      append_ne_of_length_ne name "_epoch" "_step" (by decide)]

/-- Witness for C3 as amended, at the concrete scenario of C1. -/
theorem c3_witness :
    findVal ((({ (ResultCollection.new true).logMany "training_step" "acc" true true
        false false [((5 : ℚ), (10 : ℚ)), (1, 1)] with
        on_epoch_end_reached := true }).get_epoch_metrics).get .CALLBACK) "acc"
      = some ((51 : ℚ) / 11) := by
  have h := (c3_amended_callback_epoch_variants true "training_step" "acc" false false
    [((5 : ℚ), (10 : ℚ)), (1, 1)] (by simp)).1
  rw [h]
  simp only [sumVB, sumB, List.map_cons, List.map_nil, List.sum_cons, List.sum_nil,
    Option.some.injEq]
  norm_num

/-- C4: for every key logged (nonempty sequence) with `on_step=true`
while the epoch-end marker is unset, `get_batch_metrics` emits a step
entry equal to the latest raw logged value (not the running mean), under
PBAR iff `prog_bar` was set, under LOG iff `logger` was set, and under
CALLBACK unconditionally. -/
theorem c4_step_view_entries (tr : Bool) (fx name : String) (oe pb lg : Bool)
    (pairs : List (ℚ × ℚ)) (hne : pairs ≠ []) :
    findVal ((((ResultCollection.new tr).logMany fx name true oe pb lg
        pairs).get_batch_metrics).get .PBAR) (if oe then name ++ "_step" else name)
      = (if pb then some ((pairs.map Prod.fst).getLastD 0) else none)
    ∧ findVal ((((ResultCollection.new tr).logMany fx name true oe pb lg
        pairs).get_batch_metrics).get .LOG) (if oe then name ++ "_step" else name)
      = (if lg then some ((pairs.map Prod.fst).getLastD 0) else none)
    ∧ findVal ((((ResultCollection.new tr).logMany fx name true oe pb lg
        pairs).get_batch_metrics).get .CALLBACK) (if oe then name ++ "_step" else name)
      = some ((pairs.map Prod.fst).getLastD 0) := by
  rw [logMany_new tr fx name true oe pb lg pairs hne]
  cases oe <;> cases pb <;> cases lg <;>
    refine ⟨?_, ?_, ?_⟩ <;>
    simp [ResultCollection.get_batch_metrics, Metrics.get, List.filter_cons,
      List.flatMap_cons, LoggedValue.stepName, LoggedValue.stepValue, findVal,
      ne_append_right name "_step" (by decide)]

/-- Witness for C4, at the concrete scenario of C1: the CALLBACK step
entry mirrors the just-logged raw value 1, not the running mean. -/
theorem c4_witness :
    findVal ((((ResultCollection.new true).logMany "training_step" "acc" true true
        true true [((5 : ℚ), (10 : ℚ)), (1, 1)]).get_batch_metrics).get .CALLBACK)
        (if true then "acc" ++ "_step" else "acc")
      = some (1 : ℚ) := by
  have h := (c4_step_view_entries true "training_step" "acc" true true true
    [((5 : ℚ), (10 : ℚ)), (1, 1)] (by simp)).2.2
  rw [h]
  simp
